import Mathlib

/-!
Verification of the FluteMaestro real-time pitch / swar classification pipeline.

This file gives a shallow embedding of the audio-processing core found in
`client/src/lib/simpleAudio.ts`, `client/src/lib/basicAudio.js` and the
`AudioProcessor` variants of the repository, and proves properties of that
embedding.  JavaScript numbers are modelled as real numbers, JS `%` on
integers as `Int.tmod` (remainder with the sign of the dividend),
`Math.floor` as `Int.floor`, `Math.round` as `round` (half-up, matching JS),
and `Array.prototype.indexOf` as `jsIndexOf` below.  Timestamps
(`Date.now()`) are modelled as integers (milliseconds).
-/

namespace FluteMaestro

/-- The fixed chromatic note table `WESTERN_NOTES` from `types/index.ts`
(also `allWesternNotes` in `basicAudio.js`). -/
def WESTERN_NOTES : List String :=
  ["C", "C#", "D", "D#", "E", "F"] ++ ["F#", "G", "G#", "A", "A#", "B"]

/-- The seven natural swar names (`primarySwars` in `simpleAudio.ts`,
`swarNames` in `basicAudio.js`). -/
def PRIMARY_SWARS : List String := ["Sa", "Re", "Ga", "Ma", "Pa", "Dha", "Ni"]

/-- JavaScript `Array.prototype.indexOf`, specialised to string arrays:
index of the first occurrence, `-1` when absent. -/
def jsIndexOfAux (l : List String) (s : String) (acc : Int) : Int :=
  match l with
  | [] => -1
  | x :: xs => if x = s then acc else jsIndexOfAux xs s (acc + 1)

/-- JavaScript `arr.indexOf(s)` for a string array `arr`. -/
def jsIndexOf (l : List String) (s : String) : Int := jsIndexOfAux l s 0

/-- JavaScript `s.charAt(0)`: the first character of `s` as a string
(the empty string when `s` is empty). -/
def charAt0 (s : String) : String := String.mk (s.data.take 1)

/-- JavaScript `s.includes('#')`. -/
def includesHash (s : String) : Bool := s.data.contains '#'

/-- The nearest-natural-swar search shared by `getIndianSwar` in
`simpleAudio.ts` (lines 284-303), `getIndianSwar` in `basicAudio.js`
(lines 306-323) and `westernToIndianSwar` of the first `AudioProcessor`
variant: scan the seven natural degrees in Sa..Ni order, keeping the
candidate only when the circular semitone distance is strictly smaller
than the best seen so far (`closestDistance` starts at 12, `closestSwar`
at `'Sa'`). -/
def closestPrimarySwar (relativeIndex : Int) : String :=
  let swarIndices : List Int := [0, 2, 4, 5, 7, 9, 11]
  let pairs := swarIndices.zip PRIMARY_SWARS
  (pairs.foldl
    (fun acc p =>
      let distance := min |relativeIndex - p.1| (12 - |relativeIndex - p.1|)
      if distance < acc.1 then (distance, p.2) else acc)
    (12, "Sa")).2

/-- The stateless mapping part of `SimpleAudioProcessor.getIndianSwar`
(`simpleAudio.ts` lines 261-303): take the base letter of the detected
note and of the selected scale, form the relative chromatic index
`(westernIndex - scaleIndex + 12) % 12`, and collapse it to the closest
of the seven natural swars.  (The source also computes an unused
`offset` value from the index of `'C'`.) -/
def getIndianSwarPure (westernNote selectedScale : String) : String :=
  let baseNote := charAt0 westernNote
  let scaleBase := charAt0 selectedScale
  let scaleIndex := jsIndexOf WESTERN_NOTES scaleBase
  let westernIndex := jsIndexOf WESTERN_NOTES baseNote
  let relativeIndex := (westernIndex - scaleIndex + 12).tmod 12
  closestPrimarySwar relativeIndex

/-- The stateless mapping part of `BasicAudioProcessor.getIndianSwar`
(`basicAudio.js` lines 285-323): identical nearest-natural-swar
algorithm, with an extra safety check returning `'Sa'` when the note is
not found in the table. -/
def basicGetIndianSwarPure (westernNote selectedScale : String) : String :=
  let baseNote := charAt0 westernNote
  let scaleBase := charAt0 selectedScale
  let scaleIndex := jsIndexOf WESTERN_NOTES scaleBase
  let noteIndex := jsIndexOf WESTERN_NOTES baseNote
  if noteIndex = -1 then "Sa"
  else
    let relativePosition := (noteIndex - scaleIndex + 12).tmod 12
    closestPrimarySwar relativePosition

/-- The full 12-entry swar table `swarMapping` of the second
`AudioProcessor` variant (`westernToIndianSwar`, including komal (♭) and
tivra (♯) degrees): Sa, Komal Re, Re, Komal Ga, Ga, Ma, Tivra Ma, Pa,
Komal Dha, Dha, Komal Ni, Ni. -/
def FULL_SWAR_TABLE : List String :=
  ["Sa", "Re♭", "Re", "Ga♭", "Ga", "Ma", "Ma♯", "Pa", "Dha♭", "Dha", "Ni♭", "Ni"]

/-- `westernToIndianSwar` of the second `AudioProcessor` variant (minus
its trailing rapid-change stability cache): exact 12-entry table lookup
of the relative chromatic index.  `lastSwar` is the held swar returned
on an invalid scale or note; the `|| 'Sa'` fallback of the object lookup
is the `getD` default. -/
def westernToIndianSwarFull (westernNote selectedScale lastSwar : String) : String :=
  if westernNote = "" then "Sa"
  else
    let baseNote := charAt0 westernNote
    let scaleBase := charAt0 selectedScale
    let scaleOffset := jsIndexOf WESTERN_NOTES scaleBase
    if scaleOffset = -1 then lastSwar
    else
      let noteIndex := jsIndexOf WESTERN_NOTES baseNote
      if noteIndex = -1 then lastSwar
      else
        let noteIndex' := if includesHash westernNote then (noteIndex + 1).tmod 12 else noteIndex
        let relativeIndex := (noteIndex' - scaleOffset + 12).tmod 12
        FULL_SWAR_TABLE.getD relativeIndex.toNat "Sa"

/-- `westernToIndianSwar` of the first `AudioProcessor` variant (minus its
trailing stability cache): same base-note / sharp adjustment, but an
invalid scale or note silently yields the default degree `'Sa'`, and the
relative index is collapsed to the closest of the seven natural swars
(`simpleSwarMapping`). -/
def westernToIndianSwarV1 (westernNote selectedScale : String) : String :=
  if westernNote = "" then "Sa"
  else
    let baseNote := charAt0 westernNote
    let scaleBase := charAt0 selectedScale
    let scaleOffset := jsIndexOf WESTERN_NOTES scaleBase
    if scaleOffset = -1 then "Sa"
    else
      let noteIndex := jsIndexOf WESTERN_NOTES baseNote
      if noteIndex = -1 then "Sa"
      else
        let noteIndex' := if includesHash westernNote then (noteIndex + 1).tmod 12 else noteIndex
        let relativeIndex := (noteIndex' - scaleOffset + 12).tmod 12
        closestPrimarySwar relativeIndex

/-- Cross-tick hysteresis state of the swar stabiliser in
`SimpleAudioProcessor` (fields `lastSwar` and `lastNoteTime`). -/
structure SwarStab where
  lastSwar : String
  lastNoteTime : Int
deriving DecidableEq

/-- `stabilityThreshold` in `simpleAudio.ts` (100 ms hold window). -/
def stabilityThreshold : Int := 100

/-- The stability tail of `getIndianSwar` (`simpleAudio.ts` lines
305-313): within `stabilityThreshold` of the last accepted update (and
with a truthy, i.e. nonempty, held swar) re-emit the held swar and leave
the state untouched; otherwise accept the candidate swar and refresh the
timestamp. -/
def swarStabStep (st : SwarStab) (now : Int) (swar : String) : String × SwarStab :=
  if now - st.lastNoteTime < stabilityThreshold ∧ st.lastSwar ≠ "" then
    (st.lastSwar, st)
  else
    (swar, ⟨swar, now⟩)

/-- `SimpleAudioProcessor.getIndianSwar` as a function of the detected
western note, the selected scale, the stability state and the current
time: the nearest-natural-swar mapping followed by the stability tail. -/
def getIndianSwar (westernNote selectedScale : String) (st : SwarStab) (now : Int) :
    String × SwarStab :=
  swarStabStep st now (getIndianSwarPure westernNote selectedScale)

/-- Feed a list of `(timestamp, candidate swar)` ticks through the
stability tail, collecting the emitted swars. -/
def stabEmissions (st : SwarStab) : List (Int × String) → List String
  | [] => []
  | (now, s) :: rest =>
      (swarStabStep st now s).1 :: stabEmissions (swarStabStep st now s).2 rest

/-- The timestamps of the ticks at which the emitted swar differs from
the held swar (equivalently, from the previous emission, since the held
swar always equals the last emission). -/
def stabChangeTimes (st : SwarStab) : List (Int × String) → List Int
  | [] => []
  | (now, s) :: rest =>
      if (swarStabStep st now s).1 ≠ st.lastSwar then
        now :: stabChangeTimes (swarStabStep st now s).2 rest
      else
        stabChangeTimes (swarStabStep st now s).2 rest

/-- The slice of the UI `AudioState` (`types/index.ts` plus the clarity
and saptak fields used by `simpleAudio.ts`) written by a processing
tick. -/
structure AudioState where
  selectedScale : String
  currentSwar : String
  currentOctave : Int
  currentSaptak : String
  currentFrequency : ℝ
  isNoteClean : Bool
  clarity : String
  audioLevels : List Int

/-- The initial UI state of the Home page (`useState<AudioState>` in the
page component). -/
def initialAudioState : AudioState :=
  { selectedScale := "C", currentSwar := "Sa", currentOctave := 4,
    currentSaptak := "Madhya", currentFrequency := 0, isNoteClean := true,
    clarity := "clear", audioLevels := List.replicate 32 5 }

/-- `updateScale` (`simpleAudio.ts` lines 97-99): store the new scale
string unconditionally; there is no validation and no error path. -/
def updateScale (ui : AudioState) (scale : String) : AudioState :=
  { ui with selectedScale := scale }

/-- The mean absolute sample value of the `i`-th of 32 contiguous
segments of `⌊N/32⌋` samples (`calculateAudioLevels` inner loop,
`simpleAudio.ts` lines 162-170). -/
noncomputable def segmentMean (dataArray : List ℝ) (i : ℕ) : ℝ :=
  let segmentLength := dataArray.length / 32
  let startIndex := i * segmentLength
  (((List.range segmentLength).map fun j => |dataArray.getD (startIndex + j) 0|).sum) /
    (segmentLength : ℝ)

/-- `calculateAudioLevels` (`simpleAudio.ts` lines 157-178, textually
identical in `basicAudio.js` and the `AudioProcessor` variants): for
each of `numBars = 32` bars, scale the segment's mean absolute sample to
a display height `5 + min(50, ⌊mean * 150⌋)`. -/
noncomputable def calculateAudioLevels (dataArray : List ℝ) : List Int :=
  (List.range 32).map fun i => 5 + min 50 ⌊segmentMean dataArray i * 150⌋

/-- Root-mean-square of a sample buffer: `sqrt((Σ x[i]²) / N)`
(`findDominantFrequency` lines 183-187, `autoCorrelate` lines 580-584). -/
noncomputable def rmsOf (buffer : List ℝ) : ℝ :=
  Real.sqrt (((buffer.map fun x => x * x).sum) / (buffer.length : ℝ))

/-- The averaged autocorrelation at one candidate period
(`findDominantFrequency` lines 202-209):
`(Σ_{i < N-period} x[i]·x[i+period]) / (N - period)`. -/
noncomputable def correlationAt (dataArray : List ℝ) (period : ℕ) : ℝ :=
  (((List.range (dataArray.length - period)).map fun i =>
      dataArray.getD i 0 * dataArray.getD (i + period) 0).sum) /
    ((dataArray.length : ℝ) - (period : ℝ))

/-- The loop body of the best-period scan (`findDominantFrequency` lines
211-214): replace the candidate only on a strictly larger correlation. -/
noncomputable def corrStep (dataArray : List ℝ) (acc : ℕ × ℝ) (period : ℕ) : ℕ × ℝ :=
  if acc.2 < correlationAt dataArray period then (period, correlationAt dataArray period)
  else acc

/-- The best `(period, correlation)` over the inclusive period range
`[minPeriod, maxPeriod]`, starting from `bestPeriod = 0`,
`bestCorrelation = 0`. -/
noncomputable def bestPeriodCorr (dataArray : List ℝ) (minPeriod maxPeriod : ℕ) : ℕ × ℝ :=
  (((List.range (maxPeriod + 1 - minPeriod)).map fun k => minPeriod + k).foldl
    (corrStep dataArray) (0, 0))

/-- `findDominantFrequency` (`simpleAudio.ts` lines 180-223): silence
guard at RMS `0.01`, simple autocorrelation over periods from
`⌊sampleRate/2000⌋` (`maxFreq = 2000`) to `⌊sampleRate/220⌋`
(`minFreq = 220`), returning `sampleRate / bestPeriod` when the best
correlation exceeds `0.01`, and the sentinel `-1` otherwise.  The
sentinel `-1` plays the role of the spec's `valid = false`.  (Period
bounds are modelled as naturals, i.e. for a positive sample rate.) -/
noncomputable def findDominantFrequency (dataArray : List ℝ) (sampleRate : ℝ) : ℝ :=
  if rmsOf dataArray < 0.01 then -1
  else
    let maxPeriod := (⌊sampleRate / 220⌋).toNat
    let minPeriod := (⌊sampleRate / 2000⌋).toNat
    let best := bestPeriodCorr dataArray minPeriod maxPeriod
    if 0.01 < best.2 then sampleRate / (best.1 : ℝ) else -1

/-- Step 1 of the YIN-style `autoCorrelate` (second `AudioProcessor`
variant, lines 593-600): the difference function
`d(τ) = Σ_{i < N/2} (x[i] - x[i+τ])²` for `τ < N/2`. -/
noncomputable def yinDiff (buffer : List ℝ) : List ℝ :=
  (List.range (buffer.length / 2)).map fun tau =>
    ((List.range (buffer.length / 2)).map fun i =>
        let delta := buffer.getD i 0 - buffer.getD (i + tau) 0
        delta * delta).sum

/-- Step 2 helper: cumulative-mean normalisation of the tail of the
difference function (`runningSum` accumulates the raw `d(τ)` values,
each entry becomes `d(τ)·τ / runningSum`). -/
noncomputable def cmndAux : List ℝ → ℝ → ℕ → List ℝ
  | [], _, _ => []
  | d :: rest, runningSum, tau =>
      (d * (tau : ℝ) / (runningSum + d)) :: cmndAux rest (runningSum + d) (tau + 1)

/-- Step 2 (lines 602-608): the cumulative-mean-normalised difference
function, with `d'(0) := 1` by convention. -/
noncomputable def yinCmnd (buffer : List ℝ) : List ℝ :=
  match yinDiff buffer with
  | [] => []
  | _ :: rest => 1 :: cmndAux rest 0 1

/-- Step 3 (lines 610-626): scan τ upward from 2 and take the first τ
whose normalised difference is below the `0.15` threshold, is a local
minimum, and is below the initial `minVal = 1000`; `0` when none
qualifies within the given fuel (the remaining number of candidates). -/
noncomputable def firstMinFrom (yin : List ℝ) : ℕ → ℕ → ℕ
  | _, 0 => 0
  | tau, fuel + 1 =>
      if yin.getD tau 0 < 0.15 ∧ yin.getD tau 0 < yin.getD (tau - 1) 0 ∧
          yin.getD tau 0 < yin.getD (tau + 1) 0 ∧ yin.getD tau 0 < 1000 then tau
      else firstMinFrom yin (tau + 1) fuel

/-- Fallback global scan (lines 629-642): strict-improvement minimum over
τ from 2, starting from `minVal = 1000`, `minTau = 0`. -/
noncomputable def globalMinTau (yin : List ℝ) : ℕ :=
  (((List.range (yin.length - 2)).map fun k => k + 2).foldl
    (fun acc tau => if yin.getD tau 0 < acc.2 then (tau, yin.getD tau 0) else acc)
    (0, 1000)).1

/-- `autoCorrelate` of the second `AudioProcessor` variant (lines
578-663): silence guard at RMS `0.015`, YIN-style first-minimum search
with global-minimum fallback, parabolic interpolation of the lag, and a
final rejection (sentinel `-1`) of frequencies outside [200, 2200] Hz. -/
noncomputable def autoCorrelate (buffer : List ℝ) (sampleRate : ℝ) : ℝ :=
  if rmsOf buffer < 0.015 then -1
  else
    let yin := yinCmnd buffer
    let firstMin := firstMinFrom yin 2 (yin.length - 2)
    let minTau := if firstMin = 0 then globalMinTau yin else firstMin
    if minTau = 0 then -1
    else
      let betterTau : ℝ :=
        if 0 < minTau ∧ minTau < yin.length - 1 then
          let s0 := yin.getD (minTau - 1) 0
          let s1 := yin.getD minTau 0
          let s2 := yin.getD (minTau + 1) 0
          (minTau : ℝ) + (s2 - s0) / (2 * (2 * s1 - s0 - s2))
        else (minTau : ℝ)
      let resultFreq := sampleRate / betterTau
      if resultFreq < 200 ∨ 2200 < resultFreq then -1 else resultFreq

/-- `12 * log2(frequency / 440)`: exact half steps from A4
(`getMusicalNote`, `simpleAudio.ts` lines 227-233). -/
noncomputable def exactHalfStepsFromA4 (frequency : ℝ) : ℝ :=
  12 * Real.logb 2 (frequency / 440)

/-- The cents value computed by `getMusicalNote` (line 236): the source
applies `Math.abs`, so this is the ABSOLUTE deviation
`|(exactHalfSteps - halfStepsFromA4) * 100|`. -/
noncomputable def noteCents (frequency : ℝ) : ℝ :=
  |(exactHalfStepsFromA4 frequency - (round (exactHalfStepsFromA4 frequency) : ℝ)) * 100|

/-- `getMusicalNote` (`simpleAudio.ts` lines 225-259): note name, octave
and clarity tier from a frequency, using round-half-up to the nearest
equal-tempered half step from A4 = 440 Hz. -/
noncomputable def getMusicalNote (frequency : ℝ) : String × Int × String :=
  let halfStepsFromA4 : Int := round (exactHalfStepsFromA4 frequency)
  let cents := noteCents frequency
  let octave : Int := ⌊((halfStepsFromA4 : ℝ) + 9 + 12 * 4) / 12⌋
  let noteIndex : Int := (halfStepsFromA4 + 9).tmod 12
  let noteIndex' : Int := if noteIndex < 0 then noteIndex + 12 else noteIndex
  let note := WESTERN_NOTES.getD noteIndex'.toNat ""
  let clarity : String :=
    if cents < 25 then "clear" else if cents < 45 then "somewhat" else "unclear"
  (note, octave, clarity)

/-- The chromatic-index formula as worded by the spec:
`((roundedHalfSteps + 9) mod 12 + 12) mod 12` with the JS remainder
(`tmod`); stated for the refinement comparison with the code's
conditional normalisation. -/
def chromaticIndexSpec (roundedHalfSteps : Int) : Int :=
  ((roundedHalfSteps + 9).tmod 12 + 12).tmod 12

/-- The octave formula as worded by the spec:
`floor((roundedHalfSteps + 9 + 48) / 12)` (floor division); stated for
the refinement comparison with the code's real-number floor. -/
def octaveSpec (roundedHalfSteps : Int) : Int := (roundedHalfSteps + 9 + 48).fdiv 12

/-- One 50 ms tick body of `SimpleAudioProcessor.processAudio`
(`simpleAudio.ts` lines 106-151): compute the level bars and the pitch;
on a valid (positive) pitch, derive note, swar (through the stabiliser)
and saptak and merge the full result into the UI state; otherwise merge
only the levels and a zero frequency, leaving every swar field and the
stabiliser state untouched. -/
noncomputable def processTick (ui : AudioState) (st : SwarStab) (dataArray : List ℝ)
    (sampleRate : ℝ) (now : Int) : AudioState × SwarStab :=
  let audioLevels := calculateAudioLevels dataArray
  let frequency := findDominantFrequency dataArray sampleRate
  if 0 < frequency then
    let n := getMusicalNote frequency
    let sw := getIndianSwar n.1 ui.selectedScale st now
    let saptak : String := if n.2.1 ≤ 3 then "Mandra" else if n.2.1 = 4 then "Madhya" else "Taar"
    ({ ui with
        currentFrequency := frequency
        currentSwar := sw.1
        currentOctave := n.2.1
        currentSaptak := saptak
        isNoteClean := n.2.2 == "clear"
        clarity := n.2.2
        audioLevels := audioLevels }, sw.2)
  else
    ({ ui with audioLevels := audioLevels, currentFrequency := 0 }, st)

/-- C1: Swar Translator exact-table lookup.  For scale root C and every
chromatic index 0..11, the 12-entry translator (`westernToIndianSwar` of
the second `AudioProcessor` variant) maps the note of that index to the
fixed table Sa, Komal Re (Re♭), Re, Komal Ga (Ga♭), Ga, Ma, Tivra Ma
(Ma♯), Pa, Komal Dha (Dha♭), Dha, Komal Ni (Ni♭), Ni — an exact lookup
with no nearest-match search; in particular index 2 yields Re and index
6 yields Tivra Ma.  The result is independent of the held swar
`lastSwar` (only read on invalid input). -/
theorem swar_translator_exact_table (lastSwar : String) :
    ((List.range 12).map fun i =>
        westernToIndianSwarFull (WESTERN_NOTES.getD i "") "C" lastSwar) =
      ["Sa", "Re♭", "Re", "Ga♭", "Ga", "Ma", "Ma♯", "Pa", "Dha♭", "Dha", "Ni♭", "Ni"] := by
  rfl

/-- C10: nearest-natural-swar collapse and tie-breaking.  For every
selected scale and detected note (both drawn from the 12-entry western
note table), the primary processors' swar translation returns one of
exactly the seven natural degree names, never a komal/tivra name; and a
relative offset equidistant from two natural degrees (offsets 1, 3, 8,
10) deterministically resolves to the degree occurring earlier in the
Sa..Ni order, because the search replaces its candidate only on a
strictly smaller distance. -/
theorem nearest_swar_collapse_tiebreak :
    (∀ note ∈ WESTERN_NOTES, ∀ scale ∈ WESTERN_NOTES,
      getIndianSwarPure note scale ∈ PRIMARY_SWARS ∧
      basicGetIndianSwarPure note scale ∈ PRIMARY_SWARS) ∧
    closestPrimarySwar 1 = "Sa" ∧ closestPrimarySwar 3 = "Re" ∧
    closestPrimarySwar 8 = "Pa" ∧ closestPrimarySwar 10 = "Dha" := by
  decide

/-- C10 witness: the collapse at a concrete sharp note and root. -/
theorem nearest_swar_collapse_tiebreak_witness :
    "C#" ∈ WESTERN_NOTES ∧ "C" ∈ WESTERN_NOTES ∧
    getIndianSwarPure "C#" "C" ∈ PRIMARY_SWARS ∧
    basicGetIndianSwarPure "C#" "C" ∈ PRIMARY_SWARS :=
  ⟨by decide, by decide,
    (nearest_swar_collapse_tiebreak.1 "C#" (by decide) "C" (by decide)).1,
    (nearest_swar_collapse_tiebreak.1 "C#" (by decide) "C" (by decide)).2⟩

/-- Helper: unfolding equation of `stabChangeTimes` on a cons cell. -/
theorem stabChangeTimes_cons (st : SwarStab) (now : Int) (s : String)
    (rest : List (Int × String)) :
    stabChangeTimes st ((now, s) :: rest) =
      if (swarStabStep st now s).1 ≠ st.lastSwar then
        now :: stabChangeTimes (swarStabStep st now s).2 rest
      else
        stabChangeTimes (swarStabStep st now s).2 rest := rfl

/-- Helper: along any run of the stability tail whose held and candidate
swars are nonempty (truthy), consecutive change timestamps are at least
one hold window apart, and the first change happens at least one hold
window after the state's last update. -/
theorem stabChangeTimes_spaced (inputs : List (Int × String)) (st : SwarStab)
    (hst : st.lastSwar ≠ "") (hins : ∀ p ∈ inputs, p.2 ≠ "") :
    List.Chain' (fun a b => a + stabilityThreshold ≤ b) (stabChangeTimes st inputs) ∧
    ∀ t ∈ (stabChangeTimes st inputs).head?, st.lastNoteTime + stabilityThreshold ≤ t := by
  induction inputs generalizing st with
  | nil => simp [stabChangeTimes]
  | cons p rest ih =>
    obtain ⟨now, s⟩ := p
    have hs : s ≠ "" := hins (now, s) (by simp)
    have hrest : ∀ q ∈ rest, q.2 ≠ "" := fun q hq => hins q (List.mem_cons_of_mem _ hq)
    have hth : (0 : Int) ≤ stabilityThreshold := by norm_num [stabilityThreshold]
    by_cases hg : now - st.lastNoteTime < stabilityThreshold ∧ st.lastSwar ≠ ""
    · have hstep : swarStabStep st now s = (st.lastSwar, st) := by
        simp [swarStabStep, hg]
      rw [stabChangeTimes_cons, hstep,
        if_neg (not_not_intro (rfl : (st.lastSwar, st).1 = st.lastSwar))]
      exact ih st hst hrest
    · have hstep : swarStabStep st now s = (s, ⟨s, now⟩) := by
        simp [swarStabStep, hg]
      have hlate : st.lastNoteTime + stabilityThreshold ≤ now := by
        rcases not_and_or.mp hg with h | h
        · omega
        · exact absurd hst (not_not.mp (by simpa using h))
      have ih' := ih ⟨s, now⟩ hs hrest
      by_cases hchg : s = st.lastSwar
      · rw [stabChangeTimes_cons, hstep,
          if_neg (not_not_intro (hchg : (s, (⟨s, now⟩ : SwarStab)).1 = st.lastSwar))]
        refine ⟨ih'.1, fun t ht => ?_⟩
        have h2 : now + stabilityThreshold ≤ t := ih'.2 t ht
        omega
      · rw [stabChangeTimes_cons, hstep,
          if_pos (hchg : ¬ (s, (⟨s, now⟩ : SwarStab)).1 = st.lastSwar)]
        constructor
        · refine List.chain'_cons'.mpr ⟨fun b hb => ?_, ih'.1⟩
          exact (ih'.2 b hb : now + stabilityThreshold ≤ b)
        · intro t ht
          simp only [List.head?_cons, Option.mem_def, Option.some.injEq] at ht
          omega

/-- C5: Stabilizer hold.  For every input sequence of candidate degrees
(in particular one alternating between two chromatic indices on every
tick faster than the hold window), the emitted degree sequence changes
at most once per hold window: consecutive change timestamps are at least
`stabilityThreshold` (100 ms) apart; and on any tick arriving within the
hold window of the last accepted update, the previously held degree is
re-emitted and the held state is unchanged. -/
theorem stabilizer_hold (st : SwarStab) (inputs : List (Int × String))
    (hst : st.lastSwar ≠ "") (hins : ∀ p ∈ inputs, p.2 ≠ "") :
    List.Chain' (fun a b => a + stabilityThreshold ≤ b) (stabChangeTimes st inputs) ∧
    ∀ now s, now - st.lastNoteTime < stabilityThreshold →
      swarStabStep st now s = (st.lastSwar, st) := by
  refine ⟨(stabChangeTimes_spaced inputs st hst hins).1, fun now s h => ?_⟩
  simp [swarStabStep, h, hst]

/-- C5 witness: a concrete run alternating between two swars every 50 ms
(faster than the 100 ms hold window). -/
theorem stabilizer_hold_witness :
    (SwarStab.mk "Sa" 9000).lastSwar ≠ "" ∧
    List.Chain' (fun a b => a + stabilityThreshold ≤ b)
      (stabChangeTimes ⟨"Sa", 9000⟩
        [(10000, "Re"), (10050, "Ga"), (10100, "Re"), (10150, "Ga")]) :=
  ⟨by decide,
    (stabilizer_hold ⟨"Sa", 9000⟩
      [(10000, "Re"), (10050, "Ga"), (10100, "Re"), (10150, "Ga")]
      (by decide) (by decide)).1⟩

/-- C7 counterexample: a reconfiguration does not always show in the very
next emitted degree.  With held state `⟨"Sa", 10000⟩` (Sa accepted under
the old root C at t = 10000 ms), reconfigure to root G and process a
valid tick with note C at t = 10050 ms, inside the 100 ms hold window:
the emitted degree is the held "Sa", while the degree computed relative
to the newly configured root G is "Ma". -/
theorem reconfiguration_counterexample :
    (getIndianSwar "C" "G" ⟨"Sa", 10000⟩ 10050).1 = "Sa" ∧
    getIndianSwarPure "C" "G" = "Ma" ∧
    (getIndianSwar "C" "G" ⟨"Sa", 10000⟩ 10050).1 ≠ getIndianSwarPure "C" "G" := by
  decide

/-- C7 amended: a scale reconfiguration is read on the very next
processed frame — the candidate degree of the next valid tick is
computed relative to the newly configured root — and the emitted degree
equals that candidate whenever the tick falls outside the stabiliser
hold window; within the hold window the previously held degree is
re-emitted instead. -/
theorem reconfiguration_next_frame :
    (∀ ui scale, (updateScale ui scale).selectedScale = scale) ∧
    (∀ note scale st now, st.lastNoteTime + stabilityThreshold ≤ now →
      (getIndianSwar note scale st now).1 = getIndianSwarPure note scale) := by
  refine ⟨fun ui scale => rfl, fun note scale st now h => ?_⟩
  have : ¬ (now - st.lastNoteTime < stabilityThreshold) := by omega
  simp [getIndianSwar, swarStabStep, this]

/-- C7 witness: outside the hold window the newly configured root G is
used on the next tick. -/
theorem reconfiguration_next_frame_witness :
    (updateScale initialAudioState "G").selectedScale = "G" ∧
    (SwarStab.mk "Sa" 0).lastNoteTime + stabilityThreshold ≤ 100 ∧
    (getIndianSwar "C" "G" ⟨"Sa", 0⟩ 100).1 = getIndianSwarPure "C" "G" :=
  ⟨reconfiguration_next_frame.1 initialAudioState "G", by decide,
    reconfiguration_next_frame.2 "C" "G" ⟨"Sa", 0⟩ 100 (by decide)⟩

/-- C8 counterexample: an out-of-range scale root is not rejected at the
configuration boundary, and translation silently substitutes the default
degree.  `updateScale` accepts the invalid root "X" without any error
path, and `westernToIndianSwar` (first `AudioProcessor` variant) then
returns the default "Sa" for note D, although under a valid root the
same note maps elsewhere (e.g. to "Re" under root C). -/
theorem config_error_counterexample :
    (updateScale initialAudioState "X").selectedScale = "X" ∧
    westernToIndianSwarV1 "D" "X" = "Sa" ∧
    westernToIndianSwarV1 "D" "C" = "Re" :=
  ⟨rfl, by decide, by decide⟩

/-- C8 amended: the configuration boundary performs no validation at all
— `updateScale` stores any string unchanged, touching nothing else — and
an out-of-range scale root is instead handled at translation time by
silently substituting the default degree "Sa" (first `AudioProcessor`
variant; the second variant returns the held swar). -/
theorem config_error_silent_default :
    (∀ ui scale, (updateScale ui scale).selectedScale = scale ∧
      (updateScale ui scale).currentSwar = ui.currentSwar) ∧
    (∀ note scale, jsIndexOf WESTERN_NOTES (charAt0 scale) = -1 →
      westernToIndianSwarV1 note scale = "Sa") := by
  refine ⟨fun ui scale => ⟨rfl, rfl⟩, fun note scale h => ?_⟩
  by_cases hn : note = ""
  · simp [westernToIndianSwarV1, hn]
  · simp [westernToIndianSwarV1, hn, h]

/-- C8 witness: the invalid root "X" is stored as-is and swar translation
falls back to "Sa". -/
theorem config_error_silent_default_witness :
    jsIndexOf WESTERN_NOTES (charAt0 "X") = -1 ∧
    westernToIndianSwarV1 "D" "X" = "Sa" ∧
    (updateScale initialAudioState "X").selectedScale = "X" :=
  ⟨by decide, config_error_silent_default.2 "D" "X" (by decide),
    (config_error_silent_default.1 initialAudioState "X").1⟩

/-- Helper: every entry of a zero-filled buffer reads as 0. -/
theorem getD_replicate_zero (n k : ℕ) : (List.replicate n (0 : ℝ)).getD k 0 = 0 := by
  induction n generalizing k with
  | zero => rfl
  | succ m ih =>
    cases k with
    | zero => rfl
    | succ j => simp [List.replicate_succ, ih j]

/-- Helper: segment means are nonnegative. -/
theorem segmentMean_nonneg (dataArray : List ℝ) (i : ℕ) : 0 ≤ segmentMean dataArray i := by
  unfold segmentMean
  refine div_nonneg (List.sum_nonneg ?_) (by positivity)
  intro x hx
  obtain ⟨j, _, rfl⟩ := List.mem_map.mp hx
  exact abs_nonneg _

/-- C9: Level Meter correctness.  For every input buffer the meter
produces exactly 32 bars, the `i`-th bar equals
`5 + min(50, ⌊segmentMean * 150⌋)`, every produced height lies in
[5, 55], and on an all-zero buffer every height equals 5. -/
theorem level_meter_correct :
    (∀ dataArray : List ℝ,
      (calculateAudioLevels dataArray).length = 32 ∧
      (∀ i, i < 32 → (calculateAudioLevels dataArray).getD i 0 =
        5 + min 50 ⌊segmentMean dataArray i * 150⌋) ∧
      ∀ h ∈ calculateAudioLevels dataArray, 5 ≤ h ∧ h ≤ 55) ∧
    ∀ n, calculateAudioLevels (List.replicate n 0) = List.replicate 32 5 := by
  have hfloor : ∀ (dataArray : List ℝ) (i : ℕ), 0 ≤ ⌊segmentMean dataArray i * 150⌋ :=
    fun dataArray i =>
      Int.floor_nonneg.mpr (mul_nonneg (segmentMean_nonneg dataArray i) (by norm_num))
  constructor
  · intro dataArray
    refine ⟨by simp [calculateAudioLevels], fun i hi => ?_, fun h hmem => ?_⟩
    · have hlen : i < ((List.range 32).map fun i =>
          5 + min 50 ⌊segmentMean dataArray i * 150⌋).length := by simpa using hi
      rw [calculateAudioLevels, List.getD_eq_getElem?_getD, List.getElem?_eq_getElem hlen]
      simp
    · obtain ⟨i, _, rfl⟩ := List.mem_map.mp hmem
      have h0 := hfloor dataArray i
      have h1 : (0 : Int) ≤ min 50 ⌊segmentMean dataArray i * 150⌋ :=
        le_min (by norm_num) h0
      have h2 : min (50 : Int) ⌊segmentMean dataArray i * 150⌋ ≤ 50 := min_le_left _ _
      omega
  · intro n
    have hmean : ∀ i, segmentMean (List.replicate n (0 : ℝ)) i = 0 := by
      intro i
      unfold segmentMean
      simp [getD_replicate_zero]
    have : (fun i => 5 + min 50 ⌊segmentMean (List.replicate n (0 : ℝ)) i * 150⌋) =
        fun _ : ℕ => (5 : Int) := by
      funext i
      simp [hmean i]
    rw [calculateAudioLevels, this]
    simp [List.map_const']

/-- C9 witness: the empty (degenerate) buffer yields 32 bars of height 5,
and height 5 satisfies the [5, 55] bounds. -/
theorem level_meter_correct_witness :
    (5 : Int) ∈ calculateAudioLevels [] ∧ (5 : Int) ≤ 5 ∧ (5 : Int) ≤ 55 := by
  have hz := level_meter_correct.2 0
  have hz' : calculateAudioLevels [] = List.replicate 32 5 := by
    simpa using hz
  have hmem : (5 : Int) ∈ calculateAudioLevels [] := by
    rw [hz']
    simp
  exact ⟨hmem, (level_meter_correct.1 []).2.2 5 hmem⟩

/-- C3: Silence guard.  For every input buffer whose RMS energy is below
the silence threshold (0.01 in `findDominantFrequency`, 0.015 in the
YIN `autoCorrelate`), the pitch estimator returns the no-pitch sentinel
`-1`, regardless of the buffer's contents otherwise. -/
theorem silence_guard :
    (∀ (dataArray : List ℝ) (sampleRate : ℝ), rmsOf dataArray < 0.01 →
      findDominantFrequency dataArray sampleRate = -1) ∧
    (∀ (buffer : List ℝ) (sampleRate : ℝ), rmsOf buffer < 0.015 →
      autoCorrelate buffer sampleRate = -1) := by
  constructor
  · intro dataArray sampleRate h
    simp [findDominantFrequency, h]
  · intro buffer sampleRate h
    simp [autoCorrelate, h]

/-- C3 witness: an all-zero two-sample buffer has RMS 0 and is reported
as no-pitch by both estimators. -/
theorem silence_guard_witness :
    rmsOf [0, 0] < 0.01 ∧ rmsOf [0, 0] < 0.015 ∧
    findDominantFrequency [0, 0] 44100 = -1 ∧ autoCorrelate [0, 0] 44100 = -1 := by
  have h0 : rmsOf [0, 0] = 0 := by
    simp [rmsOf]
  refine ⟨by rw [h0]; norm_num, by rw [h0]; norm_num, ?_, ?_⟩
  · exact silence_guard.1 [0, 0] 44100 (by rw [h0]; norm_num)
  · exact silence_guard.2 [0, 0] 44100 (by rw [h0]; norm_num)

/-- Helper: a left fold of the strict-improvement correlation step either
returns its initial accumulator unchanged or picks a period from the
scanned list. -/
theorem corrFold_eq_or_mem (dataArray : List ℝ) (l : List ℕ) (acc : ℕ × ℝ) :
    l.foldl (corrStep dataArray) acc = acc ∨ (l.foldl (corrStep dataArray) acc).1 ∈ l := by
  induction l generalizing acc with
  | nil => exact Or.inl rfl
  | cons x xs ih =>
    rw [List.foldl_cons]
    by_cases hx : acc.2 < correlationAt dataArray x
    · rw [corrStep, if_pos hx]
      rcases ih (x, correlationAt dataArray x) with h | h
      · right
        rw [h]
        exact List.mem_cons_self x xs
      · right
        exact List.mem_cons_of_mem _ h
    · rw [corrStep, if_neg hx]
      rcases ih acc with h | h
      · exact Or.inl h
      · right
        exact List.mem_cons_of_mem _ h

/-- C2 counterexample helper: the correlation vanishes once the period
reaches the buffer length (empty overlap region, and `0 / x = 0`). -/
theorem correlationAt_of_ge (dataArray : List ℝ) (period : ℕ)
    (h : dataArray.length ≤ period) : correlationAt dataArray period = 0 := by
  unfold correlationAt
  rw [Nat.sub_eq_zero_of_le h]
  simp

/-- Helper: periods at or past the buffer length never displace a
nonnegative accumulator. -/
theorem corrFold_skip (dataArray : List ℝ) (l : List ℕ) (acc : ℕ × ℝ)
    (hl : ∀ p ∈ l, dataArray.length ≤ p) (hacc : 0 ≤ acc.2) :
    l.foldl (corrStep dataArray) acc = acc := by
  induction l with
  | nil => rfl
  | cons x xs ih =>
    rw [List.foldl_cons, corrStep, correlationAt_of_ge dataArray x (hl x (by simp)),
      if_neg (by linarith)]
    exact ih fun p hp => hl p (List.mem_cons_of_mem _ hp)

/-- C2 (amended): PitchEstimate range invariant.  The YIN-style
`autoCorrelate` satisfies the claimed invariant exactly: every valid
(positive) result lies in [200, 2200].  `findDominantFrequency` has no
final range check; its valid results lie in
`[220, sampleRate/⌊sampleRate/2000⌋]`, which is contained in [200, 2200]
for every sample rate ≥ 20000 Hz (in particular at the typical
44100 Hz), but not for every sample rate. -/
theorem pitch_range_invariant :
    (∀ (dataArray : List ℝ) (sampleRate : ℝ), 20000 ≤ sampleRate →
      0 < findDominantFrequency dataArray sampleRate →
      200 ≤ findDominantFrequency dataArray sampleRate ∧
        findDominantFrequency dataArray sampleRate ≤ 2200) ∧
    (∀ (buffer : List ℝ) (sampleRate : ℝ),
      0 < autoCorrelate buffer sampleRate →
      200 ≤ autoCorrelate buffer sampleRate ∧
        autoCorrelate buffer sampleRate ≤ 2200) := by
  constructor
  · intro dataArray sampleRate hsr hpos
    by_cases h1 : rmsOf dataArray < 0.01
    · rw [findDominantFrequency, if_pos h1] at hpos
      norm_num at hpos
    · simp only [findDominantFrequency, if_neg h1] at hpos ⊢
      set minP := (⌊sampleRate / 2000⌋).toNat with hminP
      set maxP := (⌊sampleRate / 220⌋).toNat with hmaxP
      by_cases h2 : (0.01 : ℝ) < (bestPeriodCorr dataArray minP maxP).2
      · rw [if_pos h2] at hpos ⊢
        have hq10 : (10 : Int) ≤ ⌊sampleRate / 2000⌋ := by
          rw [Int.le_floor]
          rw [le_div_iff₀ (by norm_num : (0 : ℝ) < 2000)]
          push_cast
          linarith
        have hminP10 : 10 ≤ minP := by
          rw [hminP]
          omega
        rcases corrFold_eq_or_mem dataArray
            ((List.range (maxP + 1 - minP)).map fun k => minP + k) (0, 0) with heq | hmem
        · exfalso
          have : (bestPeriodCorr dataArray minP maxP).2 = 0 := by
            rw [bestPeriodCorr, heq]
          rw [this] at h2
          norm_num at h2
        · set p := (bestPeriodCorr dataArray minP maxP).1 with hp
          rw [bestPeriodCorr] at hp
          obtain ⟨k, hk, hpk⟩ := List.mem_map.mp hmem
          have hkrange := List.mem_range.mp hk
          have hple : p ≤ maxP := by omega
          have hpge : minP ≤ p := by omega
          have hppos : 0 < p := by omega
          have hmaxPle : (maxP : ℝ) ≤ sampleRate / 220 := by
            have hfl : (0 : Int) ≤ ⌊sampleRate / 220⌋ := by
              apply Int.floor_nonneg.mpr
              positivity
            have hcast : ((maxP : ℕ) : ℝ) = ((⌊sampleRate / 220⌋ : Int) : ℝ) := by
              rw [hmaxP]
              exact_mod_cast Int.toNat_of_nonneg hfl
            rw [hcast]
            exact Int.floor_le _
          have hsrpos : (0 : ℝ) < sampleRate := by linarith
          have hppos' : (0 : ℝ) < (p : ℝ) := by exact_mod_cast hppos
          constructor
          · -- lower bound: p ≤ maxP ≤ sampleRate/220, so sampleRate/p ≥ 220 ≥ 200
            have hple' : (p : ℝ) ≤ sampleRate / 220 := by
              refine le_trans ?_ hmaxPle
              exact_mod_cast hple
            have h220 : (220 : ℝ) * p ≤ sampleRate := by
              rw [le_div_iff₀ (by norm_num : (0 : ℝ) < 220)] at hple'
              linarith
            have : (220 : ℝ) ≤ sampleRate / p := by
              rw [le_div_iff₀ hppos']
              linarith
            linarith
          · -- upper bound: p ≥ minP = ⌊sr/2000⌋ ≥ 10 and sr < 2000(⌊sr/2000⌋+1)
            have hqP : ((minP : ℕ) : ℝ) = ((⌊sampleRate / 2000⌋ : Int) : ℝ) := by
              rw [hminP]
              have : (0 : Int) ≤ ⌊sampleRate / 2000⌋ := by omega
              exact_mod_cast congrArg Int.cast (Int.toNat_of_nonneg this)
            have hflub : sampleRate / 2000 < ((⌊sampleRate / 2000⌋ : Int) : ℝ) + 1 :=
              Int.lt_floor_add_one _
            have hsrub : sampleRate < 2000 * ((⌊sampleRate / 2000⌋ : Int) : ℝ) + 2000 := by
              rw [div_lt_iff₀ (by norm_num : (0 : ℝ) < 2000)] at hflub
              linarith
            have hq10' : (10 : ℝ) ≤ ((⌊sampleRate / 2000⌋ : Int) : ℝ) := by
              exact_mod_cast hq10
            have hsr2200 : sampleRate ≤ 2200 * ((⌊sampleRate / 2000⌋ : Int) : ℝ) := by
              nlinarith
            have hpge' : ((⌊sampleRate / 2000⌋ : Int) : ℝ) ≤ (p : ℝ) := by
              rw [← hqP]
              exact_mod_cast hpge
            have : sampleRate ≤ 2200 * (p : ℝ) := by nlinarith
            rw [div_le_iff₀ hppos']
            linarith
      · rw [if_neg h2] at hpos
        norm_num at hpos
  · intro buffer sampleRate hpos
    by_cases h1 : rmsOf buffer < 0.015
    · rw [autoCorrelate, if_pos h1] at hpos
      norm_num at hpos
    · simp only [autoCorrelate, if_neg h1] at hpos ⊢
      set yin := yinCmnd buffer
      set minTau := if firstMinFrom yin 2 (yin.length - 2) = 0 then globalMinTau yin
        else firstMinFrom yin 2 (yin.length - 2) with hminTau
      by_cases h2 : minTau = 0
      · rw [if_pos h2] at hpos
        norm_num at hpos
      · rw [if_neg h2] at hpos ⊢
        set resultFreq := sampleRate /
          (if 0 < minTau ∧ minTau < yin.length - 1 then
            (minTau : ℝ) + (yin.getD (minTau + 1) 0 - yin.getD (minTau - 1) 0) /
              (2 * (2 * yin.getD minTau 0 - yin.getD (minTau - 1) 0 - yin.getD (minTau + 1) 0))
          else (minTau : ℝ)) with hres
        by_cases h3 : resultFreq < 200 ∨ 2200 < resultFreq
        · rw [if_pos h3] at hpos
          norm_num at hpos
        · rw [if_neg h3] at hpos ⊢
          push_neg at h3
          exact ⟨h3.1, h3.2⟩

/-- Helper: JS remainder of a negated dividend. -/
theorem neg_tmod (a b : Int) : (-a).tmod b = -(a.tmod b) := by
  rw [Int.tmod_def, Int.tmod_def, Int.neg_tdiv]
  ring

/-- Helper: the JS remainder by 12 lies strictly between -12 and 12. -/
theorem tmod_twelve_bounds (a : Int) : -12 < a.tmod 12 ∧ a.tmod 12 < 12 := by
  rcases le_or_lt 0 a with h | h
  · have h1 := Int.tmod_nonneg 12 h
    have h2 := Int.tmod_lt_of_pos a (show (0 : Int) < 12 by norm_num)
    omega
  · have ha : 0 ≤ -a := by omega
    have h1 := Int.tmod_nonneg 12 ha
    have h2 := Int.tmod_lt_of_pos (-a) (show (0 : Int) < 12 by norm_num)
    have h3 : a.tmod 12 = -((-a).tmod 12) := by
      have := neg_tmod (-a) 12
      rw [neg_neg] at this
      omega
    omega

/-- Helper: the code's conditional normalisation of a possibly negative
JS remainder agrees with the spec's double-mod normalisation. -/
theorem tmod_normalize (x : Int) :
    (if x.tmod 12 < 0 then x.tmod 12 + 12 else x.tmod 12) = (x.tmod 12 + 12).tmod 12 := by
  have hb := tmod_twelve_bounds x
  by_cases h : x.tmod 12 < 0
  · rw [if_pos h]
    exact (Int.tmod_eq_of_lt (by omega) (by omega)).symm
  · rw [if_neg h]
    have h0 : 0 ≤ x.tmod 12 + 12 := by omega
    rw [Int.tmod_eq_emod h0 (by norm_num)]
    omega

/-- Helper: the real-number floor of an integer divided by 12 is integer
floor division. -/
theorem floor_cast_div_twelve (a : Int) : ⌊((a : ℝ)) / 12⌋ = a.fdiv 12 := by
  have h0 := Int.fmod_add_fdiv a 12
  have h1 : 0 ≤ a.fmod 12 := by
    rw [Int.fmod_eq_emod a (by norm_num)]
    omega
  have h2 : a.fmod 12 < 12 := Int.fmod_lt_of_pos a (by norm_num)
  have hle : 12 * a.fdiv 12 ≤ a := by omega
  have hlt : a < 12 * a.fdiv 12 + 12 := by omega
  rw [Int.floor_eq_iff]
  constructor
  · rw [le_div_iff₀ (by norm_num : (0 : ℝ) < 12)]
    exact_mod_cast by exact_mod_cast (by omega : a.fdiv 12 * 12 ≤ a)
  · rw [div_lt_iff₀ (by norm_num : (0 : ℝ) < 12)]
    have : ((a.fdiv 12 : Int) : ℝ) + 1 = ((a.fdiv 12 + 1 : Int) : ℝ) := by push_cast; ring
    rw [this]
    exact_mod_cast (by omega : a < (a.fdiv 12 + 1) * 12)

/-- C4 (amended): Note Mapper correctness.  For every positive frequency
the mapper is total and deterministic: its note name is the table entry
at the spec's chromatic index `((round(12·log2(f/440)) + 9) mod 12 + 12)
mod 12`, its octave is the spec's `floor((rounded + 9 + 48)/12)`, and
its internal cents value is the ABSOLUTE deviation
`|(exact - rounded)·100|` (the code applies `Math.abs`, amending the
claimed signed formula); `frequencyHz = 440` yields note "A" (chromatic
index 9), octave 4, and clarity "clear" (cents 0). -/
theorem note_mapper_correct :
    (∀ frequency : ℝ, 0 < frequency →
      (getMusicalNote frequency).1 =
        WESTERN_NOTES.getD
          (chromaticIndexSpec (round (exactHalfStepsFromA4 frequency))).toNat "" ∧
      (getMusicalNote frequency).2.1 = octaveSpec (round (exactHalfStepsFromA4 frequency)) ∧
      noteCents frequency =
        |(exactHalfStepsFromA4 frequency -
          (round (exactHalfStepsFromA4 frequency) : ℝ)) * 100|) ∧
    getMusicalNote 440 = ("A", 4, "clear") := by
  constructor
  · intro frequency hf
    refine ⟨?_, ?_, rfl⟩
    · simp only [getMusicalNote]
      rw [tmod_normalize]
      rfl
    · simp only [getMusicalNote]
      have hcast : ((round (exactHalfStepsFromA4 frequency) : Int) : ℝ) + 9 + 12 * 4 =
          ((round (exactHalfStepsFromA4 frequency) + 9 + 48 : Int) : ℝ) := by
        push_cast
        ring
      rw [hcast, floor_cast_div_twelve]
      rfl
  · have hexact : exactHalfStepsFromA4 440 = 0 := by
      unfold exactHalfStepsFromA4
      rw [div_self (by norm_num : (440 : ℝ) ≠ 0), Real.logb_one]
      ring
    have hcents : noteCents 440 = 0 := by
      unfold noteCents
      rw [hexact]
      norm_num
    have hoct : ⌊(((round (exactHalfStepsFromA4 440) : Int) : ℝ) + 9 + 12 * 4) / 12⌋ = 4 := by
      rw [hexact, round_zero]
      rw [show (((0 : Int) : ℝ) + 9 + 12 * 4) = ((57 : Int) : ℝ) from by push_cast; norm_num]
      rw [floor_cast_div_twelve]
      decide
    refine Prod.ext ?_ (Prod.ext ?_ ?_)
    · simp only [getMusicalNote, hexact, round_zero]
      decide
    · simp only [getMusicalNote]
      exact hoct
    · simp only [getMusicalNote, hcents]
      norm_num

/-- C4 witness: the theorem applied at 440 Hz. -/
theorem note_mapper_correct_witness :
    (0 : ℝ) < 440 ∧ getMusicalNote 440 = ("A", 4, "clear") ∧
    (getMusicalNote 440).2.1 = octaveSpec (round (exactHalfStepsFromA4 440)) :=
  ⟨by norm_num, note_mapper_correct.2, (note_mapper_correct.1 440 (by norm_num)).2.1⟩

/-- C4 counterexample: the claim's signed cents formula fails on the code
— at `f = 440·2^(-1/48)` (a quarter semitone flat of A4) the code's
cents value is `+25` (it applies `Math.abs`) while the claimed
`(exactHalfSteps - roundedHalfSteps)·100` equals `-25`. -/
theorem note_mapper_cents_counterexample :
    noteCents (440 * (2 : ℝ) ^ (-(1 : ℝ) / 48)) = 25 ∧
    (exactHalfStepsFromA4 (440 * (2 : ℝ) ^ (-(1 : ℝ) / 48)) -
      (round (exactHalfStepsFromA4 (440 * (2 : ℝ) ^ (-(1 : ℝ) / 48))) : ℝ)) * 100 = -25 ∧
    noteCents (440 * (2 : ℝ) ^ (-(1 : ℝ) / 48)) ≠
      (exactHalfStepsFromA4 (440 * (2 : ℝ) ^ (-(1 : ℝ) / 48)) -
        (round (exactHalfStepsFromA4 (440 * (2 : ℝ) ^ (-(1 : ℝ) / 48))) : ℝ)) * 100 := by
  have hexp : exactHalfStepsFromA4 (440 * (2 : ℝ) ^ (-(1 : ℝ) / 48)) = -(1 : ℝ) / 4 := by
    unfold exactHalfStepsFromA4
    rw [mul_div_cancel_left₀ _ (show (440 : ℝ) ≠ 0 by norm_num),
      Real.logb_rpow (by norm_num) (by norm_num)]
    ring
  have hround : round (-(1 : ℝ) / 4) = 0 := by
    rw [round_eq, show (-(1 : ℝ) / 4 + 1 / 2) = 1 / 4 from by norm_num]
    rw [Int.floor_eq_iff (α := ℝ) (z := 0)]
    norm_num
  have h1 : noteCents (440 * (2 : ℝ) ^ (-(1 : ℝ) / 48)) = 25 := by
    unfold noteCents
    rw [hexp, hround]
    norm_num
  have h2 : (exactHalfStepsFromA4 (440 * (2 : ℝ) ^ (-(1 : ℝ) / 48)) -
      (round (exactHalfStepsFromA4 (440 * (2 : ℝ) ^ (-(1 : ℝ) / 48))) : ℝ)) * 100 = -25 := by
    rw [hexp, hround]
    norm_num
  refine ⟨h1, h2, ?_⟩
  rw [h1, h2]
  norm_num

/-- C6: No-pitch frame condition.  On a tick whose pitch estimate is
invalid (nonpositive sentinel), the merged output carries
`frequencyHz = 0` with the previously held degree, octave and saptak,
and the stabiliser's held state is left completely unchanged. -/
theorem no_pitch_frame (ui : AudioState) (st : SwarStab) (dataArray : List ℝ)
    (sampleRate : ℝ) (now : Int)
    (h : findDominantFrequency dataArray sampleRate ≤ 0) :
    (processTick ui st dataArray sampleRate now).1.currentFrequency = 0 ∧
    (processTick ui st dataArray sampleRate now).1.currentSwar = ui.currentSwar ∧
    (processTick ui st dataArray sampleRate now).1.currentOctave = ui.currentOctave ∧
    (processTick ui st dataArray sampleRate now).1.currentSaptak = ui.currentSaptak ∧
    (processTick ui st dataArray sampleRate now).2 = st := by
  have hneg : ¬ (0 < findDominantFrequency dataArray sampleRate) := not_lt.mpr h
  simp [processTick, hneg]

/-- C6 witness: a silent buffer leaves the held Sa and stabiliser state
untouched while reporting frequency 0. -/
theorem no_pitch_frame_witness :
    findDominantFrequency [0, 0] 44100 ≤ 0 ∧
    (processTick initialAudioState ⟨"Sa", 0⟩ [0, 0] 44100 0).1.currentSwar =
      initialAudioState.currentSwar ∧
    (processTick initialAudioState ⟨"Sa", 0⟩ [0, 0] 44100 0).1.currentFrequency = 0 ∧
    (processTick initialAudioState ⟨"Sa", 0⟩ [0, 0] 44100 0).2 = ⟨"Sa", 0⟩ := by
  have h0 : rmsOf [0, 0] = 0 := by
    simp [rmsOf]
  have heval : findDominantFrequency [0, 0] 44100 = -1 := by
    rw [findDominantFrequency, if_pos (by rw [h0]; norm_num)]
  have hle : findDominantFrequency [0, 0] 44100 ≤ 0 := by
    rw [heval]
    norm_num
  obtain ⟨ha, hb, _, _, he⟩ := no_pitch_frame initialAudioState ⟨"Sa", 0⟩ [0, 0] 44100 0 hle
  exact ⟨hle, hb, ha, he⟩

/-- Helper: definitional unfolding of one step of the first-minimum
scan. -/
theorem firstMinFrom_succ (yin : List ℝ) (tau fuel : ℕ) :
    firstMinFrom yin tau (fuel + 1) =
      if yin.getD tau 0 < 0.15 ∧ yin.getD tau 0 < yin.getD (tau - 1) 0 ∧
          yin.getD tau 0 < yin.getD (tau + 1) 0 ∧ yin.getD tau 0 < 1000 then tau
      else firstMinFrom yin (tau + 1) fuel := rfl

/-- C2 counterexample: the claimed [200, 2200] invariant fails on
`findDominantFrequency` for "every sample rate".  At the standard
11025 Hz rate, a loud period-5 buffer yields the valid (positive)
estimate 2205 Hz, outside [200, 2200] — the function has no final range
check, and its period scan starts at `⌊11025/2000⌋ = 5`, i.e. at
frequencies up to 2205 Hz. -/
theorem pitch_range_counterexample :
    findDominantFrequency [1, 0, 0, 0, 0, 1, 0, 0, 0, 0] 11025 = 2205 ∧
    (0 : ℝ) < 2205 ∧ (2200 : ℝ) < 2205 := by
  refine ⟨?_, by norm_num, by norm_num⟩
  have buf : ([1, 0, 0, 0, 0, 1, 0, 0, 0, 0] : List ℝ).length = 10 := by decide
  have hrms : ¬ rmsOf [1, 0, 0, 0, 0, 1, 0, 0, 0, 0] < 0.01 := by
    rw [not_lt, rmsOf]
    rw [show ((([1, 0, 0, 0, 0, 1, 0, 0, 0, 0] : List ℝ).map fun x => x * x).sum /
        (([1, 0, 0, 0, 0, 1, 0, 0, 0, 0] : List ℝ).length : ℝ)) = 1 / 5 by norm_num]
    rw [Real.le_sqrt (by norm_num) (by norm_num)]
    norm_num
  have hfl1 : (⌊(11025 : ℝ) / 2000⌋).toNat = 5 := by
    rw [show ⌊(11025 : ℝ) / 2000⌋ = 5 by
      rw [Int.floor_eq_iff (α := ℝ) (z := 5)]; norm_num]
    rfl
  have hfl2 : (⌊(11025 : ℝ) / 220⌋).toNat = 50 := by
    rw [show ⌊(11025 : ℝ) / 220⌋ = 50 by
      rw [Int.floor_eq_iff (α := ℝ) (z := 50)]; norm_num]
    rfl
  have hc5 : correlationAt [1, 0, 0, 0, 0, 1, 0, 0, 0, 0] 5 = 1 / 5 := by
    norm_num [correlationAt, List.range_succ]
  have hc6 : correlationAt [1, 0, 0, 0, 0, 1, 0, 0, 0, 0] 6 = 0 := by
    norm_num [correlationAt, List.range_succ]
  have hc7 : correlationAt [1, 0, 0, 0, 0, 1, 0, 0, 0, 0] 7 = 0 := by
    norm_num [correlationAt, List.range_succ]
  have hc8 : correlationAt [1, 0, 0, 0, 0, 1, 0, 0, 0, 0] 8 = 0 := by
    norm_num [correlationAt, List.range_succ]
  have hc9 : correlationAt [1, 0, 0, 0, 0, 1, 0, 0, 0, 0] 9 = 0 := by
    norm_num [correlationAt, List.range_succ]
  have hsplit : ((List.range (50 + 1 - 5)).map fun k => 5 + k) =
      ([5, 6, 7, 8, 9] : List ℕ) ++
        ((List.range 41).map ((fun k => 5 + k) ∘ (fun x => 5 + x))) := by
    rw [show (50 + 1 - 5 : ℕ) = 5 + 41 from rfl, List.range_add, List.map_append,
      List.map_map]
    congr 1
  have hfold5 : List.foldl (corrStep [1, 0, 0, 0, 0, 1, 0, 0, 0, 0]) (0, 0)
      [5, 6, 7, 8, 9] = (5, 1 / 5) := by
    simp only [List.foldl_cons, List.foldl_nil, corrStep, hc5, hc6, hc7, hc8, hc9]
    norm_num
  have hbest : bestPeriodCorr [1, 0, 0, 0, 0, 1, 0, 0, 0, 0] 5 50 = (5, 1 / 5) := by
    rw [bestPeriodCorr, hsplit, List.foldl_append, hfold5]
    refine corrFold_skip _ _ _ (fun p hp => ?_) (by norm_num)
    obtain ⟨i, _, rfl⟩ := List.mem_map.mp hp
    rw [buf]
    simp only [Function.comp]
    omega
  rw [findDominantFrequency, if_neg hrms]
  simp only [hfl1, hfl2, hbest]
  norm_num

/-- C2 witness: a period-11 buffer at 22050 Hz gives a valid estimate
(22050/11 ≈ 2004.5 Hz) within [200, 2200] from `findDominantFrequency`,
and an alternating ±1 buffer at 1000 Hz gives a valid estimate
(10000/19 ≈ 526.3 Hz) within [200, 2200] from `autoCorrelate`. -/
theorem pitch_range_invariant_witness :
    (20000 : ℝ) ≤ 22050 ∧
    0 < findDominantFrequency [1, 0, 0, 0, 0, 0, 0, 0, 0, 0, 0, 1] 22050 ∧
    (200 ≤ findDominantFrequency [1, 0, 0, 0, 0, 0, 0, 0, 0, 0, 0, 1] 22050 ∧
      findDominantFrequency [1, 0, 0, 0, 0, 0, 0, 0, 0, 0, 0, 1] 22050 ≤ 2200) ∧
    0 < autoCorrelate [1, -1, 1, -1, 1, -1, 1, -1] 1000 ∧
    (200 ≤ autoCorrelate [1, -1, 1, -1, 1, -1, 1, -1] 1000 ∧
      autoCorrelate [1, -1, 1, -1, 1, -1, 1, -1] 1000 ≤ 2200) := by
  have buf : ([1, 0, 0, 0, 0, 0, 0, 0, 0, 0, 0, 1] : List ℝ).length = 12 := by decide
  have hrms : ¬ rmsOf [1, 0, 0, 0, 0, 0, 0, 0, 0, 0, 0, 1] < 0.01 := by
    rw [not_lt, rmsOf]
    rw [show ((([1, 0, 0, 0, 0, 0, 0, 0, 0, 0, 0, 1] : List ℝ).map fun x => x * x).sum /
        (([1, 0, 0, 0, 0, 0, 0, 0, 0, 0, 0, 1] : List ℝ).length : ℝ)) = 1 / 6 by norm_num]
    rw [Real.le_sqrt (by norm_num) (by norm_num)]
    norm_num
  have hfl1 : (⌊(22050 : ℝ) / 2000⌋).toNat = 11 := by
    rw [show ⌊(22050 : ℝ) / 2000⌋ = 11 by
      rw [Int.floor_eq_iff (α := ℝ) (z := 11)]; norm_num]
    rfl
  have hfl2 : (⌊(22050 : ℝ) / 220⌋).toNat = 100 := by
    rw [show ⌊(22050 : ℝ) / 220⌋ = 100 by
      rw [Int.floor_eq_iff (α := ℝ) (z := 100)]; norm_num]
    rfl
  have hc11 : correlationAt [1, 0, 0, 0, 0, 0, 0, 0, 0, 0, 0, 1] 11 = 1 := by
    norm_num [correlationAt, List.range_succ]
  have hsplit : ((List.range (100 + 1 - 11)).map fun k => 11 + k) =
      ([11] : List ℕ) ++
        ((List.range 89).map ((fun k => 11 + k) ∘ (fun x => 1 + x))) := by
    rw [show (100 + 1 - 11 : ℕ) = 1 + 89 from rfl, List.range_add, List.map_append,
      List.map_map]
    congr 1
  have hfold1 : List.foldl (corrStep [1, 0, 0, 0, 0, 0, 0, 0, 0, 0, 0, 1]) (0, 0)
      [11] = (11, 1) := by
    simp only [List.foldl_cons, List.foldl_nil, corrStep, hc11]
    norm_num
  have hbest : bestPeriodCorr [1, 0, 0, 0, 0, 0, 0, 0, 0, 0, 0, 1] 11 100 = (11, 1) := by
    rw [bestPeriodCorr, hsplit, List.foldl_append, hfold1]
    refine corrFold_skip _ _ _ (fun p hp => ?_) (by norm_num)
    obtain ⟨i, _, rfl⟩ := List.mem_map.mp hp
    rw [buf]
    simp only [Function.comp]
    omega
  have heval1 : findDominantFrequency [1, 0, 0, 0, 0, 0, 0, 0, 0, 0, 0, 1] 22050 =
      22050 / 11 := by
    rw [findDominantFrequency, if_neg hrms]
    simp only [hfl1, hfl2, hbest]
    norm_num
  have hrms2 : ¬ rmsOf [1, -1, 1, -1, 1, -1, 1, -1] < 0.015 := by
    rw [not_lt, rmsOf,
      show ((([1, -1, 1, -1, 1, -1, 1, -1] : List ℝ).map fun x => x * x).sum /
        (([1, -1, 1, -1, 1, -1, 1, -1] : List ℝ).length : ℝ)) = 1 by norm_num,
      Real.sqrt_one]
    norm_num
  have hdiff : yinDiff [1, -1, 1, -1, 1, -1, 1, -1] = [0, 16, 0, 16] := by
    norm_num [yinDiff, List.range_succ]
  have hcmnd : yinCmnd [1, -1, 1, -1, 1, -1, 1, -1] = [1, 1, 0, 3 / 2] := by
    unfold yinCmnd
    rw [hdiff]
    norm_num [cmndAux]
  have hfirst : firstMinFrom [1, 1, 0, (3 : ℝ) / 2] 2 2 = 2 := by
    rw [show (2 : ℕ) = 1 + 1 from rfl, firstMinFrom_succ]
    rw [if_pos (by norm_num)]
  have heval2 : autoCorrelate [1, -1, 1, -1, 1, -1, 1, -1] 1000 = 10000 / 19 := by
    simp only [autoCorrelate, hcmnd]
    rw [if_neg hrms2]
    norm_num [hfirst]
  have h1 : 0 < findDominantFrequency [1, 0, 0, 0, 0, 0, 0, 0, 0, 0, 0, 1] 22050 := by
    rw [heval1]
    norm_num
  have h2 : 0 < autoCorrelate [1, -1, 1, -1, 1, -1, 1, -1] 1000 := by
    rw [heval2]
    norm_num
  exact ⟨by norm_num, h1, pitch_range_invariant.1 _ 22050 (by norm_num) h1, h2,
    pitch_range_invariant.2 _ 1000 h2⟩

end FluteMaestro
